import Mathlib

/-!
Shallow embedding of the parser-combinator engine in `src/main.rs`
(`dynamic-parser`).

Modelling conventions:

* Rust `Value` / `Success` / `Failure` become the Lean inductive/structures
  of the same names.  Positions are `Int` (the source uses `i32`; the
  failure-position accessor returns the sentinel `-1`).
* A Rust parser is a closure `Fn(&Parser, &str, i32) -> Result<Success, Failure>`.
  Inside one `parse` call the first argument (the grammar root) is always the
  same parser, invoked as `(root.func)(root, s, i)`; we therefore embed the
  root as the already self-applied function `Root := String → Int → PRun`
  and a parser as `ParserFunc := Root → String → Int → PRun`.
* `PRun := Option (Except Failure Success)`: `some (.ok _)` / `some (.error _)`
  are Rust's `Ok` / `Err`; `none` models abnormal termination (a `panic!`,
  an out-of-bounds slice, or running out of fuel in the `repeat` loop, whose
  Rust original can diverge).
* The `regex` crate is external to the repository; `Parser.regex` is
  parameterised by a `captures` function modelling the compiled pattern
  `^(pattern)` applied to the remaining input, exactly as the source slices
  it.  Concrete `captures` models for the patterns appearing in the claims
  (`x`, `[0-9]+`, `a(b)?`) are defined below.  Offsets are counted in
  characters; the source's top-level completion check counts characters
  (`s.chars().count()`) while the slice arithmetic is in bytes — the two
  agree on the ASCII inputs of all claims.
-/

/-- Rust `enum Value { None, Some(String), List(Vec<Value>) }`. -/
inductive Value where
  | None : Value
  | Some : String → Value
  | List : List Value → Value

/-- The only equality test the source performs on values is `!= Value::None`;
make that test decidable (and hence executable). -/
instance (v : Value) : Decidable (v = Value.None) :=
  match v with
  | Value.None => isTrue rfl
  | Value.Some _ => isFalse (fun h => Value.noConfusion h)
  | Value.List _ => isFalse (fun h => Value.noConfusion h)

/-- Rust `struct Success { position: i32, value: Value }`. -/
structure Success where
  position : Int
  value : Value

/-- Rust `struct Failure { position: i32, expected: Vec<String> }`. -/
structure Failure where
  position : Int
  expected : List String
deriving DecidableEq

/-- Rust `Result<Success, Failure>`. -/
abbrev PResult := Except Failure Success

/-- The result of running a parser: `none` models abnormal termination
(`panic!`, out-of-bounds slicing, or divergence of the `repeat` loop). -/
abbrev PRun := Option PResult

/-- The grammar root, already applied to itself:
`fun s i => (root.func)(root, s, i)`. -/
abbrev Root := String → Int → PRun

/-- Rust `ParserFunc = Rc<dyn Fn(&Parser, &str, i32) -> Result<Success, Failure>>`. -/
abbrev ParserFunc := Root → String → Int → PRun

/-- Rust's `?` operator on `Result<Success, Failure>`, lifted over abnormal
termination: an `Err` or a `none` propagates, an `Ok` feeds the continuation. -/
def PRun.andThen (r : PRun) (k : Success → PRun) : PRun :=
  match r with
  | none => none
  | some (.error e) => some (.error e)
  | some (.ok success) => k success

/-- Accessor trait `Reply` for `Result<Success, Failure>`: `position`. -/
def Reply.position : PResult → Int
  | .ok success => success.position
  | .error failure => failure.position

/-- `Reply::err_position`: the failure position, or the sentinel `-1` on a
success. -/
def Reply.err_position : PResult → Int
  | .ok _ => -1
  | .error failure => failure.position

/-- `Reply::value`: the success value; on a failure the source runs
`panic!()`, modelled as `none`. -/
def Reply.value : PResult → Option Value
  | .ok success => some success.value
  | .error _ => none

/-- `Reply::expected`: the failure's expectation list; on a success the source
runs `panic!()`, modelled as `none`. -/
def Reply.expected : PResult → Option (List String)
  | .ok _ => none
  | .error failure => some failure.expected

/-- `Parser::merge_errs`: keep the larger position; `expected` gets `e1`'s
strings when `e1.position >= e2.position` and `e2`'s strings when
`e1.position <= e2.position` (both, `e1`'s first, on a tie). -/
def Parser.merge_errs (e1 e2 : Failure) : Failure :=
  { position := if e1.position ≤ e2.position then e2.position else e1.position
    expected :=
      (if e1.position ≥ e2.position then e1.expected else []) ++
      (if e1.position ≤ e2.position then e2.expected else []) }

/-- `Parser::and`: run `self`, then `p` from `self`'s end position,
propagating either failure via `?`; on two successes collect the non-`None`
values and collapse by arity (`0 => None`, `1 => the value`, `_ => List`). -/
def Parser.and (self p : ParserFunc) : ParserFunc := fun root s i =>
  (self root s i).andThen fun result1 =>
    (p root s result1.position).andThen fun result2 =>
      let v : List Value :=
        (if result1.value ≠ Value.None then [result1.value] else []) ++
        (if result2.value ≠ Value.None then [result2.value] else [])
      some (.ok { position := result2.position,
                  value := match v with
                           | [] => Value.None
                           | [x] => x
                           | _ => Value.List v })

/-- `Parser::list`: wrap a non-`None` result value in a singleton list. -/
def Parser.list (self : ParserFunc) : ParserFunc := fun root s i =>
  (self root s i).andThen fun result1 =>
    some (.ok { result1 with
                value := if result1.value ≠ Value.None
                         then Value.List [result1.value] else result1.value })

/-- The loop body of `Parser::flat`: `extend` the output with an element's
own elements when it is a `List`, skip it when it is `None`, `push` it
otherwise. -/
def flatVisit (v : List Value) (result : Value) : List Value :=
  match result with
  | Value.List result_each => v ++ result_each
  | Value.None => v
  | result => v ++ [result]

/-- `Parser::flat`: when the result value is a `List`, rebuild it with
`flatVisit` over the elements and collapse an empty output to `None`;
any other value passes through unchanged. -/
def Parser.flat (self : ParserFunc) : ParserFunc := fun root s i =>
  (self root s i).andThen fun result1 =>
    match result1.value with
    | Value.List results =>
        let v := results.foldl flatVisit []
        some (.ok { result1 with
                    value := match v with
                             | [] => Value.None
                             | _ => Value.List v })
    | _ => some (.ok result1)

/-- The loop of `Parser::repeat`, with explicit fuel bounding the number of
iterations (the Rust loop can diverge when `self` succeeds without consuming;
running out of fuel yields `none`).  `v` is the accumulator vector, `i` the
current offset. -/
def repeatAux (self : ParserFunc) (root : Root) (s : String) :
    Nat → List Value → Int → PRun
  | 0, _, _ => none
  | fuel + 1, v, i =>
      match self root s i with
      | none => none
      | some (.error _) => some (.ok { position := i, value := Value.List v })
      | some (.ok success) =>
          repeatAux self root s fuel
            (if success.value ≠ Value.None then v ++ [success.value] else v)
            success.position

/-- `Parser::repeat`: iterate `self`, accumulating non-`None` values, until
the first failure; that failure is swallowed and the accumulated list is
returned as a `Value.List` at the offset reached so far. -/
def Parser.repeatP (self : ParserFunc) (fuel : Nat) : ParserFunc :=
  fun root s pi => repeatAux self root s fuel [] pi

/-- `Parser::or`: try `self`; on failure try `p` at the same offset; if both
fail, merge the failures; a success (or a panic) is returned as-is. -/
def Parser.or (self p : ParserFunc) : ParserFunc := fun root s i =>
  match self root s i with
  | some (.error e1) =>
      match p root s i with
      | some (.error e2) => some (.error (Parser.merge_errs e1 e2))
      | ok => ok
  | ok => ok

/-- The capture groups of one regex-crate match.  `get n` is
`caps.get(n).map(|m| m.as_str())`: `get 0` is the whole match and, because
the source wraps the user pattern as `^(pattern)`, `get (g + 1)` is the
user's group `g`. -/
structure Caps where
  get : Nat → Option String

/-- Rust `&source[position as usize..source.len()]`: `none` models the panic
on an out-of-range index (positions are counted in characters, see the
header note). -/
def strSlice (source : String) (position : Int) : Option String :=
  if 0 ≤ position ∧ position ≤ (source.length : Int)
  then some (String.mk (source.data.drop position.toNat)) else none

/-- `Parser::regex(pattern, group)`: slice the remaining input, run the
compiled anchored pattern (the `captures` model).  On a match, the new
position advances by the length of the whole match and the value is `None`
for `group < 0`, else `Some` of the requested capture group's text — whose
absence makes the source's `.unwrap()` panic (`none`).  On no match, fail at
the current position with `expected = [pattern]`. -/
def Parser.regex (pattern : String) (captures : String → Option Caps)
    (group : Int) : ParserFunc := fun _root source position =>
  match strSlice source position with
  | none => none
  | some src =>
      match captures src with
      | some caps =>
          match (if group < 0 then some "" else caps.get (group.toNat + 1)),
                caps.get 0 with
          | some text, some mat =>
              some (.ok { position := position + (mat.length : Int),
                          value := if group < 0 then Value.None
                                   else Value.Some text })
          | _, _ => none
      | none => some (.error { position := position, expected := [pattern] })

/-- `Parser::skip(pattern)`: `regex(pattern, -1)`. -/
def Parser.skip (pattern : String) (captures : String → Option Caps) :
    ParserFunc :=
  Parser.regex pattern captures (-1)

/-- `fuel`-bounded self-application tying the grammar root's knot:
`rootOf p fuel` is `fun s i => (p.func)(p, s, i)` unrolled `fuel` times. -/
def rootOf (p : ParserFunc) : Nat → Root
  | 0 => fun _ _ => none
  | fuel + 1 => fun s i => p (rootOf p fuel) s i

/-- `Parser::parse`: run `self` at offset 0 with itself as root (`?`
propagates a failure); a success that ends before `s.chars().count()`
becomes a `Failure` there with `expected = ["no length"]`. -/
def Parser.parse (self : ParserFunc) (fuel : Nat) (s : String) : PRun :=
  (self (rootOf self fuel) s 0).andThen fun success =>
    if success.position < (s.length : Int)
    then some (.error { position := success.position,
                        expected := ["no length"] })
    else some (.ok success)

/-- Model of the regex crate on the compiled pattern `^(x)` (from
`matchPattern("x", 0)`): matches iff the remaining input starts with `x`;
group 0 (the whole match) and group 1 (the wrapper) are both `"x"`. -/
def capsX (src : String) : Option Caps :=
  match src.data with
  | 'x' :: _ => some ⟨fun n => if n ≤ 1 then some "x" else none⟩
  | _ => none

/-- Model of the regex crate on the compiled pattern `^([0-9]+)` (from
`matchPattern("[0-9]+", 0)`): matches iff the remaining input starts with a
digit, greedily capturing the maximal digit prefix in groups 0 and 1. -/
def capsDigits (src : String) : Option Caps :=
  let ds := src.data.takeWhile Char.isDigit
  match ds with
  | [] => none
  | _ => some ⟨fun n => if n ≤ 1 then some (String.mk ds) else none⟩

/-- Model of the regex crate on the compiled pattern `^(a(b)?)` (from
`matchPattern("a(b)?", 1)`): on input starting with `"ab"` every group is
filled; on input starting with `"a"` alone, the optional inner group 2 (the
user's group 1) does not participate, so `get 2 = none`. -/
def capsAOptB (src : String) : Option Caps :=
  match src.data with
  | 'a' :: 'b' :: _ =>
      some ⟨fun n => if n ≤ 1 then some "ab"
                     else if n = 2 then some "b" else none⟩
  | 'a' :: _ =>
      some ⟨fun n => if n ≤ 1 then some "a" else none⟩
  | _ => none

/-- The spec's description of `sequence`'s result value (§4.3): collect the
non-`Empty` sub-values in order; `Empty` when both are `Empty`, the lone
non-`Empty` one when exactly one is, otherwise the two-element list. -/
def specSeqValue (v1 v2 : Value) : Value :=
  if v1 = Value.None ∧ v2 = Value.None then Value.None
  else if v1 = Value.None then v2
  else if v2 = Value.None then v1
  else Value.List [v1, v2]

/-- The spec's description of `flatten`'s list rebuild (§4.3): splice the
elements of each immediate `List` element (one level only), drop `Empty`
elements, append every other element as-is. -/
def specFlatten : List Value → List Value
  | [] => []
  | Value.List xs :: rest => xs ++ specFlatten rest
  | Value.None :: rest => specFlatten rest
  | v :: rest => v :: specFlatten rest

/-- The spec's collapse of a rebuilt list (§4.3): an empty flatten result
becomes `Empty`, anything else stays a `List`. -/
def listOrNone (v : List Value) : Value :=
  match v with
  | [] => Value.None
  | _ => Value.List v

/-- Prepend already-accumulated values `w` onto the list value of a
`repeat` outcome; non-success outcomes (and the unreachable non-list
values) pass through. -/
def consList (w : List Value) (r : PRun) : PRun :=
  match r with
  | some (.ok suc) =>
      match suc.value with
      | Value.List vs => some (.ok ⟨suc.position, Value.List (w ++ vs)⟩)
      | _ => some (.ok suc)
  | r => r

/-- A concrete test parser: succeeds (consuming one character, value
`Value.Some "x"`) at offsets below 2, fails at offset 2 and beyond. -/
def stepX : ParserFunc := fun _ _ j =>
  if j < (2 : Int) then some (.ok ⟨j + 1, Value.Some "x"⟩)
  else some (.error ⟨j, ["x"]⟩)

/-- Spec §3 invariant shape: no `Empty` value occurs as an element of any
`List` anywhere inside a value. -/
inductive NoEmptyInList : Value → Prop where
  | none : NoEmptyInList Value.None
  | some (t : String) : NoEmptyInList (Value.Some t)
  | list (vs : List Value) (hne : ∀ v ∈ vs, v ≠ Value.None)
      (hrec : ∀ v ∈ vs, NoEmptyInList v) : NoEmptyInList (Value.List vs)

/-- The parsers claim C8 quantifies over: those built from the atomic
matcher and the `sequence`, `flatten` and `repeat` combinators. -/
inductive CoreBuilt : ParserFunc → Prop where
  | regex (pattern : String) (captures : String → Option Caps)
      (group : Int) : CoreBuilt (Parser.regex pattern captures group)
  | and (p q : ParserFunc) : CoreBuilt p → CoreBuilt q →
      CoreBuilt (Parser.and p q)
  | flat (p : ParserFunc) : CoreBuilt p → CoreBuilt (Parser.flat p)
  | repeatP (p : ParserFunc) (fuel : Nat) : CoreBuilt p →
      CoreBuilt (Parser.repeatP p fuel)

/-- The source's accumulator loop over the elements computes exactly the
spec's splice-drop-append list, prefixed by the accumulator. -/
theorem foldl_flatVisit (results v : List Value) :
    results.foldl flatVisit v = v ++ specFlatten results := by
  induction results generalizing v with
  | nil => simp [specFlatten]
  | cons r rest ih =>
      cases r <;> simp [flatVisit, specFlatten, ih, List.append_assoc]

/-- When both operands of `Parser::and` succeed, the combined success ends
at the second's position with the spec's value combination. -/
theorem and_run_ok (self p : ParserFunc) (root : Root) (s : String) (i : Int)
    (r1 r2 : Success) (h1 : self root s i = some (.ok r1))
    (h2 : p root s r1.position = some (.ok r2)) :
    Parser.and self p root s i =
      some (.ok ⟨r2.position, specSeqValue r1.value r2.value⟩) := by
  by_cases hv1 : r1.value = Value.None <;>
    by_cases hv2 : r2.value = Value.None <;>
    simp [Parser.and, PRun.andThen, h1, h2, specSeqValue, hv1, hv2]

/-- On a success carrying a `List`, `Parser::flat` rebuilds it per the
spec's one-level splice and collapse. -/
theorem flat_run_list_ok (self : ParserFunc) (root : Root) (s : String)
    (i : Int) (r1 : Success) (results : List Value)
    (h1 : self root s i = some (.ok r1))
    (hv : r1.value = Value.List results) :
    Parser.flat self root s i =
      some (.ok ⟨r1.position, listOrNone (specFlatten results)⟩) := by
  simp only [Parser.flat, PRun.andThen, h1, hv, foldl_flatVisit,
    List.nil_append]
  rcases specFlatten results with _ | ⟨v, vs⟩ <;> rfl

/-- On a success carrying a non-`List` value, `Parser::flat` passes the
success through unchanged. -/
theorem flat_run_pass (self : ParserFunc) (root : Root) (s : String)
    (i : Int) (r1 : Success) (h1 : self root s i = some (.ok r1))
    (hv : ∀ results, r1.value ≠ Value.List results) :
    Parser.flat self root s i = some (.ok r1) := by
  rcases hr : r1.value with _ | t | results
  · simp [Parser.flat, PRun.andThen, h1, hr]
  · simp [Parser.flat, PRun.andThen, h1, hr]
  · exact absurd hr (hv results)

/-- Prepending accumulated values in two steps or one is the same. -/
theorem consList_assoc (v w : List Value) (r : PRun) :
    consList v (consList w r) = consList (v ++ w) r := by
  rcases r with _ | r
  · rfl
  · rcases r with e | suc
    · rfl
    · rcases suc with ⟨pos, val⟩
      cases val <;> simp [consList, List.append_assoc]

/-- The `repeat` loop's accumulator can be split off: running with
accumulator `v` equals running with an empty accumulator and prepending
`v` to the resulting list. -/
theorem repeatAux_acc (self : ParserFunc) (root : Root) (s : String) :
    ∀ (fuel : Nat) (v : List Value) (i : Int),
      repeatAux self root s fuel v i =
        consList v (repeatAux self root s fuel [] i) := by
  intro fuel
  induction fuel with
  | zero => intro v i; rfl
  | succ fuel ih =>
      intro v i
      rcases h : self root s i with _ | r
      · simp [repeatAux, h, consList]
      · rcases r with e | suc
        · simp [repeatAux, h, consList]
        · simp only [repeatAux, h]
          by_cases hv : suc.value = Value.None
          · rw [if_neg (not_not_intro hv), if_neg (not_not_intro hv)]
            exact ih v suc.position
          · rw [if_pos hv, if_pos hv, List.nil_append,
              ih (v ++ [suc.value]), ih [suc.value], consList_assoc]

/-- Every normal outcome of the `repeat` loop is a success carrying a
`Value.List`. -/
theorem repeatAux_shape (self : ParserFunc) (root : Root) (s : String) :
    ∀ (fuel : Nat) (v : List Value) (i : Int) (out : PResult),
      repeatAux self root s fuel v i = some out →
      ∃ pos vs, out = .ok ⟨pos, Value.List vs⟩ := by
  intro fuel
  induction fuel with
  | zero => intro v i out h; exact absurd h (by simp [repeatAux])
  | succ fuel ih =>
      intro v i out h
      rcases hr : self root s i with _ | r
      · rw [repeatAux, hr] at h; exact absurd h (by simp)
      · rcases r with e | suc
        · rw [repeatAux, hr] at h
          exact ⟨i, v, by simpa using h.symm⟩
        · rw [repeatAux, hr] at h
          exact ih _ _ out h

/-- The spec's two-value combination never places an `Empty` inside a list
and preserves the no-`Empty`-in-lists shape. -/
theorem specSeqValue_no_empty (v1 v2 : Value) (h1 : NoEmptyInList v1)
    (h2 : NoEmptyInList v2) : NoEmptyInList (specSeqValue v1 v2) := by
  by_cases hv1 : v1 = Value.None <;> by_cases hv2 : v2 = Value.None
  · simpa [specSeqValue, hv1, hv2] using NoEmptyInList.none
  · simpa [specSeqValue, hv1, hv2] using h2
  · simpa [specSeqValue, hv1, hv2] using h1
  · have he : specSeqValue v1 v2 = Value.List [v1, v2] := by
      simp [specSeqValue, hv1, hv2]
    rw [he]
    refine NoEmptyInList.list [v1, v2] ?_ ?_
    · intro v hv
      rcases List.mem_cons.mp hv with rfl | hv
      · exact hv1
      · have hv' := List.mem_singleton.mp hv
        subst hv'
        exact hv2
    · intro v hv
      rcases List.mem_cons.mp hv with rfl | hv
      · exact h1
      · have hv' := List.mem_singleton.mp hv
        subst hv'
        exact h2

/-- One-level splicing of a no-`Empty`-in-lists list yields a list whose
elements are all non-`Empty` and themselves of that shape. -/
theorem specFlatten_no_empty :
    ∀ results : List Value, NoEmptyInList (Value.List results) →
      ∀ v ∈ specFlatten results, v ≠ Value.None ∧ NoEmptyInList v := by
  intro results
  induction results with
  | nil =>
      intro h v hv
      exact absurd hv (by simp [specFlatten])
  | cons r rest ih =>
      intro h v hv
      cases h with
      | list vs hne hrec =>
          have hrest : NoEmptyInList (Value.List rest) :=
            NoEmptyInList.list rest
              (fun w hw => hne w (List.mem_cons_of_mem r hw))
              (fun w hw => hrec w (List.mem_cons_of_mem r hw))
          cases r with
          | None => exact absurd rfl (hne Value.None (List.mem_cons_self _ _))
          | Some t =>
              simp only [specFlatten] at hv
              rcases List.mem_cons.mp hv with rfl | hv
              · exact ⟨fun hx => Value.noConfusion hx, NoEmptyInList.some t⟩
              · exact ih hrest v hv
          | List xs =>
              simp only [specFlatten] at hv
              rcases List.mem_append.mp hv with hv | hv
              · have hx := hrec (Value.List xs) (List.mem_cons_self _ _)
                cases hx with
                | list _ hne2 hrec2 => exact ⟨hne2 v hv, hrec2 v hv⟩
              · exact ih hrest v hv

/-- The flatten-and-collapse of a no-`Empty`-in-lists list keeps that
shape. -/
theorem listOrNone_no_empty (results : List Value)
    (h : NoEmptyInList (Value.List results)) :
    NoEmptyInList (listOrNone (specFlatten results)) := by
  have hall := specFlatten_no_empty results h
  rcases hs : specFlatten results with _ | ⟨w, ws⟩
  · exact NoEmptyInList.none
  · rw [hs] at hall
    exact NoEmptyInList.list (w :: ws) (fun v hv => (hall v hv).1)
      (fun v hv => (hall v hv).2)

/-- The `repeat` loop preserves the no-`Empty`-in-lists shape: with an
accumulator of non-`Empty`, well-shaped values and an iteration parser whose
successes are well-shaped, any normal success is well-shaped. -/
theorem repeatAux_no_empty (self : ParserFunc) (root : Root) (s : String)
    (hself : ∀ i suc, self root s i = some (.ok suc) →
      NoEmptyInList suc.value) :
    ∀ (fuel : Nat) (v : List Value) (i : Int) (suc : Success),
      (∀ w ∈ v, w ≠ Value.None ∧ NoEmptyInList w) →
      repeatAux self root s fuel v i = some (.ok suc) →
      NoEmptyInList suc.value := by
  intro fuel
  induction fuel with
  | zero => intro v i suc hv h; exact absurd h (by simp [repeatAux])
  | succ fuel ih =>
      intro v i suc hv h
      rcases hr : self root s i with _ | (e | success)
      · rw [repeatAux, hr] at h
        exact absurd h (by simp)
      · rw [repeatAux, hr] at h
        have hs := Except.ok.inj (Option.some.inj h)
        rw [← hs]
        exact NoEmptyInList.list v (fun w hw => (hv w hw).1)
          (fun w hw => (hv w hw).2)
      · rw [repeatAux, hr] at h
        refine ih _ success.position suc ?_ h
        intro w hw
        by_cases hvv : success.value = Value.None
        · rw [if_neg (not_not_intro hvv)] at hw
          exact hv w hw
        · rw [if_pos hvv] at hw
          rcases List.mem_append.mp hw with hw | hw
          · exact hv w hw
          · have hw' := List.mem_singleton.mp hw
            subst hw'
            exact ⟨hvv, hself i success hr⟩

/-- Claim C2: `merge_errs` keeps the larger position; the expectations are
the further failure's, and the concatenation (e1's first) on a tie. -/
theorem merge_errs_furthest (e1 e2 : Failure) :
    (Parser.merge_errs e1 e2).position = max e1.position e2.position ∧
    (e1.position > e2.position →
      (Parser.merge_errs e1 e2).expected = e1.expected) ∧
    (e1.position < e2.position →
      (Parser.merge_errs e1 e2).expected = e2.expected) ∧
    (e1.position = e2.position →
      (Parser.merge_errs e1 e2).expected = e1.expected ++ e2.expected) := by
  refine ⟨?_, fun h => ?_, fun h => ?_, fun h => ?_⟩
  · simp [Parser.merge_errs, max_def]
  · simp [Parser.merge_errs, le_of_lt h, not_le.mpr h]
  · simp [Parser.merge_errs, le_of_lt h, not_le.mpr h]
  · simp [Parser.merge_errs, h]

/-- Witness for C2: all three branches of `merge_errs_furthest` discharged at
concrete failures. -/
theorem merge_errs_furthest_witness :
    (Parser.merge_errs ⟨5, ["a"]⟩ ⟨3, ["b"]⟩).expected = ["a"] ∧
    (Parser.merge_errs ⟨3, ["a"]⟩ ⟨5, ["b"]⟩).expected = ["b"] ∧
    (Parser.merge_errs ⟨4, ["a"]⟩ ⟨4, ["b"]⟩).expected = ["a"] ++ ["b"] ∧
    (Parser.merge_errs ⟨5, ["a"]⟩ ⟨3, ["b"]⟩).position = max 5 3 :=
  ⟨(merge_errs_furthest ⟨5, ["a"]⟩ ⟨3, ["b"]⟩).2.1 (by decide),
   (merge_errs_furthest ⟨3, ["a"]⟩ ⟨5, ["b"]⟩).2.2.1 (by decide),
   (merge_errs_furthest ⟨4, ["a"]⟩ ⟨4, ["b"]⟩).2.2.2 rfl,
   (merge_errs_furthest ⟨5, ["a"]⟩ ⟨3, ["b"]⟩).1⟩

/-- Claim C3: `sequence(p, q)` propagates `p`'s failure unchanged, else
propagates `q`'s failure (with `q` run from `p`'s end position), and on two
successes ends at `q`'s position with the `specSeqValue` combination. -/
theorem and_sequences (self p : ParserFunc) (root : Root) (s : String)
    (i : Int) :
    (∀ e, self root s i = some (.error e) →
      Parser.and self p root s i = some (.error e)) ∧
    (∀ r1 e, self root s i = some (.ok r1) →
      p root s r1.position = some (.error e) →
      Parser.and self p root s i = some (.error e)) ∧
    (∀ r1 r2, self root s i = some (.ok r1) →
      p root s r1.position = some (.ok r2) →
      Parser.and self p root s i =
        some (.ok ⟨r2.position, specSeqValue r1.value r2.value⟩)) := by
  refine ⟨fun e h1 => ?_, fun r1 e h1 h2 => ?_, fun r1 r2 h1 h2 => ?_⟩
  · simp [Parser.and, PRun.andThen, h1]
  · simp [Parser.and, PRun.andThen, h1, h2]
  · exact and_run_ok self p root s i r1 r2 h1 h2

/-- Witness for C3: all three branches of `and_sequences` at concrete
parsers, covering the failure propagations and the value combination. -/
theorem and_sequences_witness :
    Parser.and (fun _ _ _ => some (.error ⟨0, ["x"]⟩))
      (fun _ _ _ => some (.ok ⟨2, Value.Some "v"⟩))
      (fun _ _ => none) "kv" 0 = some (.error ⟨0, ["x"]⟩) ∧
    Parser.and (fun _ _ _ => some (.ok ⟨1, Value.Some "k"⟩))
      (fun _ _ j => if j = 1 then some (.error ⟨1, ["y"]⟩) else none)
      (fun _ _ => none) "kv" 0 = some (.error ⟨1, ["y"]⟩) ∧
    Parser.and (fun _ _ _ => some (.ok ⟨1, Value.Some "k"⟩))
      (fun _ _ _ => some (.ok ⟨2, Value.Some "v"⟩))
      (fun _ _ => none) "kv" 0 =
      some (.ok ⟨2, specSeqValue (Value.Some "k") (Value.Some "v")⟩) :=
  ⟨(and_sequences _ _ _ "kv" 0).1 ⟨0, ["x"]⟩ rfl,
   (and_sequences _ _ _ "kv" 0).2.1 ⟨1, Value.Some "k"⟩ ⟨1, ["y"]⟩ rfl rfl,
   (and_sequences _ _ _ "kv" 0).2.2 ⟨1, Value.Some "k"⟩ ⟨2, Value.Some "v"⟩
     rfl rfl⟩

/-- Claim C4: `choice(p, q)` is left-biased — `p`'s success is returned
as-is; on `p`'s failure, `q` runs at the same starting offset, its success is
returned as-is, and two failures are merged with `merge_errs` rather than
either being returned alone. -/
theorem or_choice (self p : ParserFunc) (root : Root) (s : String) (i : Int) :
    (∀ suc, self root s i = some (.ok suc) →
      Parser.or self p root s i = some (.ok suc)) ∧
    (∀ e1 suc, self root s i = some (.error e1) →
      p root s i = some (.ok suc) →
      Parser.or self p root s i = some (.ok suc)) ∧
    (∀ e1 e2, self root s i = some (.error e1) →
      p root s i = some (.error e2) →
      Parser.or self p root s i =
        some (.error (Parser.merge_errs e1 e2))) := by
  refine ⟨fun suc h1 => ?_, fun e1 suc h1 h2 => ?_, fun e1 e2 h1 h2 => ?_⟩
  · simp [Parser.or, h1]
  · simp [Parser.or, h1, h2]
  · simp [Parser.or, h1, h2]

/-- Witness for C4: all three branches of `or_choice` at concrete parsers;
in the double-failure branch the merged failure is the further one's. -/
theorem or_choice_witness :
    Parser.or (fun _ _ _ => some (.ok ⟨1, Value.Some "x"⟩))
      (fun _ _ _ => some (.ok ⟨1, Value.Some "y"⟩))
      (fun _ _ => none) "x" 0 = some (.ok ⟨1, Value.Some "x"⟩) ∧
    Parser.or (fun _ _ _ => some (.error ⟨0, ["x"]⟩))
      (fun _ _ _ => some (.ok ⟨1, Value.Some "y"⟩))
      (fun _ _ => none) "y" 0 = some (.ok ⟨1, Value.Some "y"⟩) ∧
    Parser.or (fun _ _ _ => some (.error ⟨0, ["x"]⟩))
      (fun _ _ _ => some (.error ⟨3, ["y"]⟩))
      (fun _ _ => none) "www" 0 =
      some (.error (Parser.merge_errs ⟨0, ["x"]⟩ ⟨3, ["y"]⟩)) :=
  ⟨(or_choice _ _ _ "x" 0).1 ⟨1, Value.Some "x"⟩ rfl,
   (or_choice _ _ _ "y" 0).2.1 ⟨0, ["x"]⟩ ⟨1, Value.Some "y"⟩ rfl rfl,
   (or_choice _ _ _ "www" 0).2.2 ⟨0, ["x"]⟩ ⟨3, ["y"]⟩ rfl rfl⟩

/-- Claim C9: `value()` on a failure and `expected()` on a success both
`panic!` (modelled `none`) instead of yielding a default, while
`err_position()` on a success returns the sentinel `-1`. -/
theorem reply_accessor_contract :
    (∀ f : Failure, Reply.value (.error f) = none) ∧
    (∀ suc : Success, Reply.expected (.ok suc) = none) ∧
    (∀ suc : Success, Reply.err_position (.ok suc) = -1) :=
  ⟨fun _ => rfl, fun _ => rfl, fun _ => rfl⟩

/-- Claim C6: `flatten(p)` propagates `p`'s failure; on a success whose value
is a `List` it rebuilds the list per `specFlatten` (one level of splicing,
`Empty` elements dropped), collapsing an empty result to `Empty`; any
non-`List` value passes through unchanged. -/
theorem flat_single_level (self : ParserFunc) (root : Root) (s : String)
    (i : Int) :
    (∀ e, self root s i = some (.error e) →
      Parser.flat self root s i = some (.error e)) ∧
    (∀ r1 results, self root s i = some (.ok r1) →
      r1.value = Value.List results →
      Parser.flat self root s i =
        some (.ok ⟨r1.position, listOrNone (specFlatten results)⟩)) ∧
    (∀ r1, self root s i = some (.ok r1) →
      (∀ results, r1.value ≠ Value.List results) →
      Parser.flat self root s i = some (.ok r1)) := by
  refine ⟨fun e h1 => ?_, fun r1 results h1 hv => ?_, fun r1 h1 hv => ?_⟩
  · simp [Parser.flat, PRun.andThen, h1]
  · exact flat_run_list_ok self root s i r1 results h1 hv
  · exact flat_run_pass self root s i r1 h1 hv

/-- Witness for C6: all three branches of `flat_single_level` at concrete
outcomes; the spliced list keeps two-deep nesting and drops `Empty`. -/
theorem flat_single_level_witness :
    Parser.flat (fun _ _ _ => some (.error ⟨1, ["q"]⟩)) (fun _ _ => none)
      "s" 0 = some (.error ⟨1, ["q"]⟩) ∧
    Parser.flat
      (fun _ _ _ => some (.ok ⟨3, Value.List
        [Value.List [Value.Some "a"], Value.None, Value.Some "b",
         Value.List [Value.List [Value.Some "c"]]]⟩))
      (fun _ _ => none) "s" 0 =
      some (.ok ⟨3, Value.List
        [Value.Some "a", Value.Some "b", Value.List [Value.Some "c"]]⟩) ∧
    Parser.flat (fun _ _ _ => some (.ok ⟨2, Value.Some "q"⟩))
      (fun _ _ => none) "s" 0 = some (.ok ⟨2, Value.Some "q"⟩) :=
  ⟨(flat_single_level _ _ "s" 0).1 ⟨1, ["q"]⟩ rfl,
   (flat_single_level _ _ "s" 0).2.1
     ⟨3, Value.List [Value.List [Value.Some "a"], Value.None, Value.Some "b",
                     Value.List [Value.List [Value.Some "c"]]]⟩
     [Value.List [Value.Some "a"], Value.None, Value.Some "b",
      Value.List [Value.List [Value.Some "c"]]] rfl rfl,
   (flat_single_level _ _ "s" 0).2.2 ⟨2, Value.Some "q"⟩ rfl
     (fun _ h => Value.noConfusion h)⟩

/-- Claim C5: `repeat(p)` never returns a failure — every normal outcome is
a success whose value is a `Value.List` (even when empty); its run is
characterised by: on `p`'s failure it stops at the current offset with the
accumulated (empty-so-far) list, and on `p`'s success it continues from
`p`'s end position, prepending `p`'s value when that value is not `Empty`. -/
theorem repeat_never_fails (self : ParserFunc) (root : Root) (s : String)
    (i : Int) :
    (∀ fuel out, Parser.repeatP self fuel root s i = some out →
      ∃ pos vs, out = .ok ⟨pos, Value.List vs⟩) ∧
    (∀ fuel e, self root s i = some (.error e) →
      Parser.repeatP self (fuel + 1) root s i =
        some (.ok ⟨i, Value.List []⟩)) ∧
    (∀ fuel suc, self root s i = some (.ok suc) →
      Parser.repeatP self (fuel + 1) root s i =
        consList (if suc.value ≠ Value.None then [suc.value] else [])
          (Parser.repeatP self fuel root s suc.position)) := by
  refine ⟨fun fuel out h => ?_, fun fuel e h => ?_, fun fuel suc h => ?_⟩
  · exact repeatAux_shape self root s fuel [] i out h
  · simp [Parser.repeatP, repeatAux, h]
  · simp only [Parser.repeatP, repeatAux, h]
    by_cases hv : suc.value = Value.None
    · rw [if_neg (not_not_intro hv), if_neg (not_not_intro hv)]
      exact repeatAux_acc self root s fuel [] suc.position
    · rw [if_pos hv, if_pos hv, List.nil_append]
      exact repeatAux_acc self root s fuel [suc.value] suc.position

/-- Witness for C5: all three conjuncts of `repeat_never_fails` at the
concrete parser `stepX` on `"xx"`. -/
theorem repeat_never_fails_witness :
    (∃ pos vs, (Except.ok ⟨(2 : Int), Value.List []⟩ : PResult) =
      Except.ok ⟨pos, Value.List vs⟩) ∧
    Parser.repeatP stepX 1 (fun _ _ => none) "xx" 2 =
      some (.ok ⟨2, Value.List []⟩) ∧
    Parser.repeatP stepX 2 (fun _ _ => none) "xx" 1 =
      consList [Value.Some "x"]
        (Parser.repeatP stepX 1 (fun _ _ => none) "xx" 2) :=
  ⟨(repeat_never_fails stepX (fun _ _ => none) "xx" 2).1 1
     (Except.ok ⟨2, Value.List []⟩) rfl,
   (repeat_never_fails stepX (fun _ _ => none) "xx" 2).2.1 0 ⟨2, ["x"]⟩ rfl,
   (repeat_never_fails stepX (fun _ _ => none) "xx" 1).2.2 1
     ⟨2, Value.Some "x"⟩ rfl⟩

/-- Claim C1: a root-level success ending strictly before the input's full
character count is discarded by `parse` and turned into a `Failure` at that
end position with `expected = ["no length"]`; in particular
`repeat(matchPattern("x",0))` on `"xxxxxy"` stops at 5 and `parse` fails
there. -/
theorem parse_trailing_input (p : ParserFunc) (fuel : Nat) (s : String) :
    (∀ suc, p (rootOf p fuel) s 0 = some (.ok suc) →
      suc.position < (s.length : Int) →
      Parser.parse p fuel s = some (.error ⟨suc.position, ["no length"]⟩)) ∧
    Parser.parse (Parser.repeatP (Parser.regex "x" capsX 0) 10) 1 "xxxxxy" =
      some (.error ⟨5, ["no length"]⟩) := by
  refine ⟨fun suc h hlt => ?_, rfl⟩
  simp [Parser.parse, PRun.andThen, h, hlt]

/-- Witness for C1: the general conjunct of `parse_trailing_input`
instantiated at the `repeat(matchPattern("x",0))` grammar on `"xxxxxy"`,
whose root invocation succeeds at position 5 of 6. -/
theorem parse_trailing_input_witness :
    Parser.parse (Parser.repeatP (Parser.regex "x" capsX 0) 10) 1 "xxxxxy" =
      some (.error ⟨5, ["no length"]⟩) :=
  (parse_trailing_input (Parser.repeatP (Parser.regex "x" capsX 0) 10) 1
      "xxxxxy").1
    ⟨5, Value.List [Value.Some "x", Value.Some "x", Value.Some "x",
      Value.Some "x", Value.Some "x"]⟩ rfl (by decide)

/-- Claim C7 (amended): `matchPattern` is anchored at the current offset of
the remaining input; on no match it fails there with `expected = [pattern]`;
on a match it advances by the whole match's length with value `Empty`
(no capture requested) or `Leaf` of the captured text.  The spec's concrete
example is corrected: `matchPattern("[0-9]+",0)` invoked at offset 0 of
`"12a"` *succeeds* at position 2 with value `Leaf("12")`, and driving it
through `parse` fails at position 2 with `expected = ["no length"]` (not
`["[0-9]+"]`). -/
theorem regex_anchored_match (pattern : String)
    (captures : String → Option Caps) (group : Int) (root : Root)
    (s src : String) (i : Int) (hsrc : strSlice s i = some src) :
    (captures src = none →
      Parser.regex pattern captures group root s i =
        some (.error ⟨i, [pattern]⟩)) ∧
    (∀ caps mat, captures src = some caps → caps.get 0 = some mat →
      group < 0 →
      Parser.regex pattern captures group root s i =
        some (.ok ⟨i + (mat.length : Int), Value.None⟩)) ∧
    (∀ caps mat text, captures src = some caps → caps.get 0 = some mat →
      0 ≤ group → caps.get (group.toNat + 1) = some text →
      Parser.regex pattern captures group root s i =
        some (.ok ⟨i + (mat.length : Int), Value.Some text⟩)) ∧
    Parser.regex "[0-9]+" capsDigits 0 root "12a" 0 =
      some (.ok ⟨2, Value.Some "12"⟩) ∧
    Parser.parse (Parser.regex "[0-9]+" capsDigits 0) 1 "12a" =
      some (.error ⟨2, ["no length"]⟩) := by
  refine ⟨fun hc => ?_, fun caps mat hc h0 hg => ?_,
    fun caps mat text hc h0 hg hget => ?_, rfl, rfl⟩
  · simp [Parser.regex, hsrc, hc]
  · simp [Parser.regex, hsrc, hc, h0, hg]
  · simp [Parser.regex, hsrc, hc, h0, hget, not_lt.mpr hg]

/-- Witness for C7: `regex_anchored_match` instantiated with all hypotheses
discharged — a genuine atomic mismatch (at offset 2 of `"12a"` the remaining
input `"a"` has no digit), a skip-style match, and a capturing match. -/
theorem regex_anchored_match_witness :
    Parser.regex "[0-9]+" capsDigits 0 (fun _ _ => none) "12a" 2 =
      some (.error ⟨2, ["[0-9]+"]⟩) ∧
    Parser.regex "x" capsX (-1) (fun _ _ => none) "xy" 0 =
      some (.ok ⟨1, Value.None⟩) ∧
    Parser.regex "x" capsX 0 (fun _ _ => none) "xy" 0 =
      some (.ok ⟨1, Value.Some "x"⟩) :=
  ⟨(regex_anchored_match "[0-9]+" capsDigits 0 (fun _ _ => none) "12a" "a" 2
      rfl).1 rfl,
   (regex_anchored_match "x" capsX (-1) (fun _ _ => none) "xy" "xy" 0
      rfl).2.1 ⟨fun n => if n ≤ 1 then some "x" else none⟩ "x" rfl rfl
      (by decide),
   (regex_anchored_match "x" capsX 0 (fun _ _ => none) "xy" "xy" 0
      rfl).2.2.1 ⟨fun n => if n ≤ 1 then some "x" else none⟩ "x" "x" rfl rfl
      (by decide) rfl⟩

/-- Counterexample for C7 as stated: `matchPattern("[0-9]+", 0)` on `"12a"`
does not fail with `expected = ["[0-9]+"]` at position 2 — through `parse`
the failure at position 2 carries `expected = ["no length"]`, and the direct
invocation at offset 0 is a success at position 2. -/
theorem regex_example_counterexample :
    Parser.parse (Parser.regex "[0-9]+" capsDigits 0) 1 "12a" =
      some (.error ⟨2, ["no length"]⟩) ∧
    Parser.parse (Parser.regex "[0-9]+" capsDigits 0) 1 "12a" ≠
      some (.error ⟨2, ["[0-9]+"]⟩) ∧
    Parser.regex "[0-9]+" capsDigits 0 (fun _ _ => none) "12a" 0 =
      some (.ok ⟨2, Value.Some "12"⟩) := by
  refine ⟨rfl, fun h => ?_, rfl⟩
  exact absurd (Except.error.inj (Option.some.inj h)) (by decide)

/-- Claim C10: when the anchored pattern matches but the requested
non-negative capture group did not participate in the match, the source's
`.unwrap()` on the absent group panics (modelled `none`) instead of
producing any outcome. -/
theorem regex_missing_group_panics (pattern : String)
    (captures : String → Option Caps) (group : Int) (root : Root)
    (s src : String) (i : Int) (caps : Caps)
    (hsrc : strSlice s i = some src) (hg : 0 ≤ group)
    (hcaps : captures src = some caps)
    (hget : caps.get (group.toNat + 1) = none) :
    Parser.regex pattern captures group root s i = none := by
  rcases h0 : caps.get 0 with _ | mat <;>
    simp [Parser.regex, hsrc, hcaps, hget, h0, not_lt.mpr hg]

/-- Witness for C10: `matchPattern("a(b)?", 1)` on `"a"` — the pattern
matches but the optional group 1 is absent, so the parser panics. -/
theorem regex_missing_group_panics_witness :
    Parser.regex "a(b)?" capsAOptB 1 (fun _ _ => none) "a" 0 = none :=
  regex_missing_group_panics "a(b)?" capsAOptB 1 (fun _ _ => none) "a" "a" 0
    ⟨fun n => if n ≤ 1 then some "a" else none⟩ rfl (by decide) rfl rfl

/-- Claim C8: for every parser built from the atomic matcher and the
`sequence`, `flatten` and `repeat` combinators, no success value ever has an
`Empty` element inside any of its `List`s — `sequence` and `flatten` drop
`Empty` children and `repeat` accumulates only non-`Empty` iteration
values. -/
theorem core_built_no_empty (p : ParserFunc) (hp : CoreBuilt p) :
    ∀ (root : Root) (s : String) (i : Int) (suc : Success),
      p root s i = some (.ok suc) → NoEmptyInList suc.value := by
  induction hp with
  | regex pattern captures group =>
      intro root s i suc h
      rcases hs : strSlice s i with _ | src
      · simp [Parser.regex, hs] at h
      · rcases hc : captures src with _ | caps
        · simp [Parser.regex, hs, hc] at h
        · rcases ht : (if group < 0 then some ""
              else caps.get (group.toNat + 1)) with _ | text
          · simp [Parser.regex, hs, hc, ht] at h
          · rcases h0 : caps.get 0 with _ | mat
            · simp [Parser.regex, hs, hc, ht, h0] at h
            · simp only [Parser.regex, hs, hc, ht, h0] at h
              have hsuc := Except.ok.inj (Option.some.inj h)
              rw [← hsuc]
              show NoEmptyInList (if group < 0 then Value.None
                else Value.Some text)
              by_cases hg : group < 0
              · rw [if_pos hg]; exact NoEmptyInList.none
              · rw [if_neg hg]; exact NoEmptyInList.some text
  | and p q hp hq ihp ihq =>
      intro root s i suc h
      rcases hp1 : p root s i with _ | (e1 | r1)
      · rw [show Parser.and p q root s i = none from by
          simp [Parser.and, PRun.andThen, hp1]] at h
        exact absurd h (by simp)
      · rw [show Parser.and p q root s i = some (.error e1) from by
          simp [Parser.and, PRun.andThen, hp1]] at h
        exact absurd h (by simp)
      · rcases hq1 : q root s r1.position with _ | (e2 | r2)
        · rw [show Parser.and p q root s i = none from by
            simp [Parser.and, PRun.andThen, hp1, hq1]] at h
          exact absurd h (by simp)
        · rw [show Parser.and p q root s i = some (.error e2) from by
            simp [Parser.and, PRun.andThen, hp1, hq1]] at h
          exact absurd h (by simp)
        · rw [and_run_ok p q root s i r1 r2 hp1 hq1] at h
          have hs := Except.ok.inj (Option.some.inj h)
          rw [← hs]
          exact specSeqValue_no_empty r1.value r2.value
            (ihp root s i r1 hp1) (ihq root s r1.position r2 hq1)
  | flat p hp ihp =>
      intro root s i suc h
      rcases hp1 : p root s i with _ | (e1 | r1)
      · rw [show Parser.flat p root s i = none from by
          simp [Parser.flat, PRun.andThen, hp1]] at h
        exact absurd h (by simp)
      · rw [show Parser.flat p root s i = some (.error e1) from by
          simp [Parser.flat, PRun.andThen, hp1]] at h
        exact absurd h (by simp)
      · rcases hr : r1.value with _ | t | results
        · rw [flat_run_pass p root s i r1 hp1
            (fun results hx => Value.noConfusion (hr.symm.trans hx))] at h
          have hs := Except.ok.inj (Option.some.inj h)
          rw [← hs, hr]
          exact NoEmptyInList.none
        · rw [flat_run_pass p root s i r1 hp1
            (fun results hx => Value.noConfusion (hr.symm.trans hx))] at h
          have hs := Except.ok.inj (Option.some.inj h)
          rw [← hs, hr]
          exact NoEmptyInList.some t
        · rw [flat_run_list_ok p root s i r1 results hp1 hr] at h
          have hs := Except.ok.inj (Option.some.inj h)
          rw [← hs]
          exact listOrNone_no_empty results (hr ▸ ihp root s i r1 hp1)
  | repeatP p fuel hp ihp =>
      intro root s i suc h
      exact repeatAux_no_empty p root s
        (fun j suc' hj => ihp root s j suc' hj) fuel [] i suc
        (fun w hw => absurd hw (List.not_mem_nil w)) h

/-- Witness for C8: `core_built_no_empty` at the concrete grammar
`repeat(matchPattern("x",0))` run on `"xx"`, whose success value is
`List [Leaf "x", Leaf "x"]`. -/
theorem core_built_no_empty_witness :
    NoEmptyInList (Value.List [Value.Some "x", Value.Some "x"]) :=
  core_built_no_empty (Parser.repeatP (Parser.regex "x" capsX 0) 3)
    (CoreBuilt.repeatP (Parser.regex "x" capsX 0) 3
      (CoreBuilt.regex "x" capsX 0))
    (fun _ _ => none) "xx" 0 ⟨2, Value.List [Value.Some "x", Value.Some "x"]⟩
    rfl
